import Mathlib

/-!
Verification development for the video-script generation pipeline.

The program turns a request record (topic, story, aspect ratio, mood,
keywords, language — six strings) into a structured video plan.  All
definitions below are shallow embeddings of the TypeScript source
(`generateVideoScript` and its helpers, plus the URL parameter
encode/decode pair of the page component).  Strings are modelled as
`List Char`; JavaScript regular-expression operations are modelled by
explicit character scans; `Math.round` on non-negative numbers is
modelled over `ℚ` as `⌊q + 1/2⌋`; record lookups (`Record<string, T>`,
implemented as object literals) are modelled as total functions that
return the table entry for own keys, fall back through `??` to the
default for absent keys, and — because bracket lookup on an object
literal walks the prototype chain — yield the inherited (non-profile)
`Object.prototype` member for its property names, on which the
generator's later method calls throw.
-/

/-- Strings of the embedded program, modelled as character lists. -/
abbrev JStr := List Char

/-- JavaScript whitespace class `\s` (also the character set removed by
`String.prototype.trim`). -/
def isJsWs (c : Char) : Bool :=
  c = ' ' || c = '\t' || c = '\n' || c.toNat = 11 || c.toNat = 12 || c = '\r' ||
  c.toNat = 0xa0 || c.toNat = 0x1680 ||
  (decide (0x2000 ≤ c.toNat) && decide (c.toNat ≤ 0x200a)) ||
  c.toNat = 0x2028 || c.toNat = 0x2029 || c.toNat = 0x202f ||
  c.toNat = 0x205f || c.toNat = 0x3000 || c.toNat = 0xfeff

/-- ASCII uppercase letter test, the regex class `[A-Z]`. -/
def isUpperAZ (c : Char) : Bool :=
  decide (65 ≤ c.toNat) && decide (c.toNat ≤ 90)

/-- ASCII lowercase letter test, the regex class `[a-z]`. -/
def isLowerAZ (c : Char) : Bool :=
  decide (97 ≤ c.toNat) && decide (c.toNat ≤ 122)

/-- ASCII digit test, the regex class `[0-9]`. -/
def isDigit09 (c : Char) : Bool :=
  decide (48 ≤ c.toNat) && decide (c.toNat ≤ 57)

/-- The regex word-character class `\w`, i.e. `[A-Za-z0-9_]`. -/
def isWordChar (c : Char) : Bool :=
  isUpperAZ c || isLowerAZ c || isDigit09 c || c = '_'

/-- ASCII case lowering, the effect of JavaScript `toLowerCase` on the
ASCII range (all characters appearing in the verified claims). -/
def lowC (c : Char) : Char :=
  if isUpperAZ c then Char.ofNat (c.toNat + 32) else c

/-- ASCII case raising, the effect of JavaScript `toUpperCase` on the
ASCII range. -/
def upC (c : Char) : Char :=
  if isLowerAZ c then Char.ofNat (c.toNat - 32) else c

/-- Lowercase an embedded string (`toLowerCase`). -/
def lowerL (s : JStr) : JStr := s.map lowC

/-- The effect of `String.prototype.trim`: drop leading and trailing
JavaScript whitespace. -/
def trimJs (s : JStr) : JStr :=
  ((s.dropWhile isJsWs).reverse.dropWhile isJsWs).reverse

/-- Splitting worker: cut `l` at the characters satisfying `p`,
returning the (necessarily non-empty) chunks between separator runs.
`acc` holds the current chunk, reversed. -/
def chunksGo (p : Char → Bool) (acc : JStr) : JStr → List JStr
  | [] => if acc.isEmpty then [] else [acc.reverse]
  | c :: rest =>
    if p c then
      if acc.isEmpty then chunksGo p [] rest
      else acc.reverse :: chunksGo p [] rest
    else chunksGo p (c :: acc) rest

/-- Split a string at runs of characters satisfying `p`, dropping empty
pieces.  This models the composition `split(regex-class-run)` followed
by the source's removal of empty pieces (`filter(Boolean)` or the
length filters each call site applies). -/
def chunks (p : Char → Bool) (l : JStr) : List JStr := chunksGo p [] l

/-- Substring containment, JavaScript `String.prototype.includes`. -/
def containsSub (hay sub : JStr) : Bool :=
  sub.isPrefixOf hay ||
    match hay with
    | [] => false
    | _ :: t => containsSub t sub

/-- Sentence-end punctuation class `[.!?]` of the segmentation regex. -/
def isEndPunct (c : Char) : Bool := c = '.' || c = '!' || c = '?'

/-- Sentence segmentation worker for the split on
`(?<=[.!?])\s+(?=[A-Z])`: a cut happens exactly at a whitespace run
whose preceding character is sentence-end punctuation and whose
following character (after the run) is an ASCII uppercase letter.
`acc` holds the current sentence, reversed.  After a cut the scan
resumes inside the whitespace run, so a piece may carry leading
whitespace that the regex split would have consumed; the caller
(`parseStoryBeats`) trims every piece, which erases the difference,
and no further cut can fire inside the run because the preceding
character is then whitespace, not punctuation. -/
def sentGo (acc : JStr) : JStr → List JStr
  | [] => [acc.reverse]
  | c :: rest =>
    if isEndPunct (acc.headD ' ') && isJsWs c &&
        (match rest.dropWhile isJsWs with
         | [] => false
         | d :: _ => isUpperAZ d) then
      acc.reverse :: sentGo [] rest
    else
      sentGo (c :: acc) rest

/-- Split a string into sentence pieces at the boundaries of the
segmentation regex (pieces keep their boundary punctuation and may
carry leading whitespace, removed by the subsequent trim). -/
def sentSplit (l : JStr) : List JStr := sentGo [] l

/-- Two characters forming a case-insensitive occurrence of `ai`. -/
def isAiPair (c1 c2 : Char) : Bool :=
  (c1 = 'a' || c1 = 'A') && (c2 = 'i' || c2 = 'I')

/-- Word-boundary test after a match: end of string or a non-word
character. -/
def boundAfter : JStr → Bool
  | [] => true
  | d :: _ => !isWordChar d

/-- Scan of `replace(/\b(ai)\b/gi, "AI")`: replace each whole-word
case-insensitive occurrence of `ai` by `AI`.  `prev` records whether
the previously scanned character was a word character (so that `\b`
holds exactly when `prev` is false). -/
def replWA (prev : Bool) : JStr → JStr
  | [] => []
  | [c] => [c]
  | c1 :: c2 :: rest =>
    if !prev && isAiPair c1 c2 && boundAfter rest then
      'A' :: 'I' :: replWA true rest
    else
      c1 :: replWA (isWordChar c1) (c2 :: rest)

/-- Scan of `replace(/AI/gi, "AI")`: replace each case-insensitive
occurrence of `ai` (anywhere, also inside longer words) by `AI`. -/
def replAA : JStr → JStr
  | [] => []
  | [c] => [c]
  | c1 :: c2 :: rest =>
    if isAiPair c1 c2 then 'A' :: 'I' :: replAA rest
    else c1 :: replAA (c2 :: rest)

/-- First-occurrence de-duplication, the effect of
`Array.from(new Set(list))`. -/
def dedupFirst (seen : List JStr) : List JStr → List JStr
  | [] => []
  | x :: xs =>
    if x ∈ seen then dedupFirst seen xs else x :: dedupFirst (x :: seen) xs

/-- Join a list of strings with a separator (`Array.prototype.join`). -/
def joinSep (sep : JStr) : List JStr → JStr
  | [] => []
  | [x] => x
  | x :: y :: rest => x ++ sep ++ joinSep sep (y :: rest)

/-- Decimal rendering of an integer, JavaScript number-to-string
conversion for integral values. -/
def intChars (n : ℤ) : JStr :=
  if n < 0 then '-' :: Nat.toDigits 10 n.natAbs else Nat.toDigits 10 n.toNat

/-- Decimal rendering of a natural number. -/
def natChars (n : ℕ) : JStr := Nat.toDigits 10 n

/-- JavaScript `Math.round` on a non-negative rational: nearest
integer, halves rounding up. -/
def jsRound (q : ℚ) : ℤ := (q + 1 / 2).floor

/-- Rounded division `Math.round(a / b)` for naturals (`b` positive),
computed integrally as `(2a + b) / (2b)`; the agreement with the
rational rounding is proved in `roundDiv_eq_jsRound`. -/
def roundDiv (a b : ℕ) : ℕ := (2 * a + b) / (2 * b)

/-- JavaScript string truthiness (`filter(Boolean)` and conditional
expressions on strings): true exactly for non-empty strings. -/
def strTruthy (s : JStr) : Bool := !s.isEmpty

/-- Stable descending insertion (by count) into an already sorted list:
an element goes after every earlier element with a count at least as
large.  Models the stable `sort((a, b) => b[1] - a[1])`. -/
def insDesc (x : JStr × Nat) : List (JStr × Nat) → List (JStr × Nat)
  | [] => [x]
  | y :: ys => if x.2 ≥ y.2 then x :: y :: ys else y :: insDesc x ys

/-- Stable sort by descending count. -/
def sortDesc (l : List (JStr × Nat)) : List (JStr × Nat) :=
  l.foldr insDesc []

/-- Increment the count of `w` in an insertion-ordered association
list, appending a fresh entry when absent.  Models the `Map` updates of
the frequency pass (JavaScript `Map` iterates in insertion order). -/
def bumpCount (w : JStr) : List (JStr × Nat) → List (JStr × Nat)
  | [] => [(w, 1)]
  | (v, n) :: rest =>
    if v = w then (v, n + 1) :: rest else (v, n) :: bumpCount w rest

/-- The request record, `ScriptForm` of the source: six caller-supplied
strings.  The aspect-ratio field carries a `Key` suffix here. -/
structure ScriptForm where
  topic : JStr
  story : JStr
  aspectRatioKey : JStr
  mood : JStr
  keywords : JStr
  language : JStr
deriving DecidableEq, Repr

/-- One generated scene, `ScenePlan` of the source. -/
structure ScenePlan where
  id : Nat
  label : JStr
  voiceover : JStr
  duration : JStr
  visuals : JStr
  overlay : JStr
  assets : List JStr
deriving DecidableEq, Repr

/-- The generated plan, `VideoScript` of the source. -/
structure VideoScript where
  title : JStr
  subtitle : JStr
  hook : JStr
  callToAction : JStr
  aspectRatioKey : JStr
  mood : JStr
  language : JStr
  pacing : JStr
  audioRecommendation : JStr
  colorPalette : List JStr
  keywords : List JStr
  narrationStyle : JStr
  scenes : List ScenePlan
  productionNotes : List (Option JStr)
deriving DecidableEq, Repr

/-- Mood profile record of the source. -/
structure MoodProfile where
  pacing : JStr
  audio : JStr
  colorPalette : List JStr
  motion : JStr
  lighting : JStr
  voiceTone : JStr
  hookVerb : JStr
deriving DecidableEq, Repr

/-- Aspect-ratio guidance record of the source (`AspectConcept`). -/
structure AspectConcept where
  framing : JStr
  safeZone : JStr
deriving DecidableEq, Repr

/-- The `calm` entry of `MOOD_PROFILES`. -/
def calmProfile : MoodProfile where
  pacing := "even, thoughtful cadence".toList
  audio := "Soft ambient piano bed with airy pads".toList
  colorPalette := ["#E6F0FF".toList, "#C9DBF4".toList, "#F4F6FB".toList]
  motion := "gentle parallax moves and slow dolly pushes".toList
  lighting := "diffused light with cool highlights".toList
  voiceTone := "warm, reassuring narration".toList
  hookVerb := "Invite".toList

/-- The `energetic` entry of `MOOD_PROFILES`. -/
def energeticProfile : MoodProfile where
  pacing := "snappy with dynamic emphasis".toList
  audio := "Driving electronic beat with rhythmic pulses".toList
  colorPalette := ["#FFE6AA".toList, "#FF8A65".toList, "#3D5AFE".toList]
  motion := "bold camera sweeps and quick punch-ins".toList
  lighting := "high contrast with saturated accents".toList
  voiceTone := "confident and enthusiastic".toList
  hookVerb := "Energize".toList

/-- The `inspirational` entry of `MOOD_PROFILES`. -/
def inspirationalProfile : MoodProfile where
  pacing := "uplifting, gradually building momentum".toList
  audio := "Cinematic orchestra with light percussion".toList
  colorPalette := ["#FFF3E0".toList, "#F8BBD0".toList, "#B39DDB".toList]
  motion := "slow reveals with lens flare accents".toList
  lighting := "warm backlighting with soft bloom".toList
  voiceTone := "aspirational and optimistic".toList
  hookVerb := "Inspire".toList

/-- The property names of `Object.prototype`.  Bracket lookup on an
object literal finds these through the prototype chain, so
`table[key] ?? default` does not fall back to the default for them: it
yields the inherited member (a function, or `Object.prototype` itself
for `__proto__`), which is not nullish. -/
def objectProtoKeys : List JStr :=
  ["constructor", "hasOwnProperty", "isPrototypeOf",
   "propertyIsEnumerable", "toLocaleString", "toString", "valueOf",
   "__proto__", "__defineGetter__", "__defineSetter__",
   "__lookupGetter__", "__lookupSetter__"].map String.toList

/-- Lookup `MOOD_PROFILES[mood] ?? DEFAULT_MOOD_PROFILE`: own keys give
their profile, absent keys give the calm default through `??`, and
`Object.prototype` property names give the inherited member — not a
profile, modelled `none`; the generator then throws at
`moodProfile.colorPalette[0]` or `moodProfile.audio.toLowerCase()`,
both reached on every run. -/
def moodProfileOf (mood : JStr) : Option MoodProfile :=
  if mood = "calm".toList then some calmProfile
  else if mood = "energetic".toList then some energeticProfile
  else if mood = "inspirational".toList then some inspirationalProfile
  else if mood ∈ objectProtoKeys then none
  else some calmProfile

/-- The `16:9` entry of `ASPECT_GUIDANCE`. -/
def aspectWide : AspectConcept where
  framing :=
    "Landscape compositions with breathable negative space for lower-third overlays.".toList
  safeZone :=
    "Keep essential graphics inside the central 80% to protect against cropping on social platforms.".toList

/-- The `9:16` entry of `ASPECT_GUIDANCE`. -/
def aspectTall : AspectConcept where
  framing :=
    "Vertical storytelling with stacked layers and motion from bottom to top.".toList
  safeZone :=
    "Constrain text to the middle 60% to avoid UI overlays on short-form platforms.".toList

/-- The `1:1` entry of `ASPECT_GUIDANCE`. -/
def aspectSquare : AspectConcept where
  framing := "Centered compositions with symmetrical graphic arrangements.".toList
  safeZone :=
    "Use a circular safe zone to keep faces and titles from getting clipped.".toList

/-- Lookup `ASPECT_GUIDANCE[aspectRatio] ?? DEFAULT_ASPECT_GUIDANCE`:
own keys give their guidance, absent keys give the `16:9` default, and
`Object.prototype` property names give the inherited member (`none`):
its `framing`/`safeZone` reads then yield `undefined`, which only flows
into a template string and a notes array, so generation still
succeeds. -/
def aspectProfileOf (key : JStr) : Option AspectConcept :=
  if key = "16:9".toList then some aspectWide
  else if key = "9:16".toList then some aspectTall
  else if key = "1:1".toList then some aspectSquare
  else if key ∈ objectProtoKeys then none
  else some aspectWide

/-- Lookup `LANGUAGE_LABELS[language] ?? "English"`: own keys give
their label, absent keys give `English`, and `Object.prototype`
property names give the inherited member (`none`); the generator then
throws at `languageLabel.toLowerCase()` while building the subtitle. -/
def languageLabelOf (lang : JStr) : Option JStr :=
  if lang = "en".toList then some "English".toList
  else if lang = "es".toList then some "Spanish".toList
  else if lang = "fr".toList then some "French".toList
  else if lang = "de".toList then some "German".toList
  else if lang = "pt".toList then some "Portuguese".toList
  else if lang = "it".toList then some "Italian".toList
  else if lang = "ja".toList then some "Japanese".toList
  else if lang = "zh".toList then some "Mandarin Chinese".toList
  else if lang ∈ objectProtoKeys then none
  else some "English".toList

/-- The `STOP_WORDS` set of the source. -/
def stopWords : List JStr :=
  ["a", "an", "and", "are", "as", "at", "be", "by", "for", "from", "how",
   "in", "into", "is", "it", "of", "on", "or", "that", "the", "to", "with",
   "what", "why", "when", "does", "do", "can", "like", "just"].map
    String.toList

/-- `capitalize`: uppercase the first character, keep the rest. -/
def capitalizeL : JStr → JStr
  | [] => []
  | c :: rest => upC c :: rest

/-- `clamp(value, min, max)` = `Math.min(Math.max(value, min), max)`. -/
def clampI (v lo hi : ℤ) : ℤ := min (max v lo) hi

/-- Word count used by the duration and narration estimates:
`split(/\s+/).filter(Boolean).length`. -/
def wordCount (text : JStr) : Nat := (chunks isJsWs text).length

/-- `estimateDurationSeconds`: word count divided by the speaking rate
2.7 words per second, rounded to the nearest integer (`Math.round`) and
clamped to `[4, 9]`.  The quotient `w / 2.7 = 10w / 27` is rounded with
the integral `roundDiv`; `estimate_eq_round` proves this equal to the
rational formulation. -/
def estimateDurationSeconds (text : JStr) : ℤ :=
  clampI (roundDiv (10 * wordCount text) 27) 4 9

/-- `formatDuration`: the integer with an `s` suffix. -/
def formatDuration (seconds : ℤ) : JStr := intChars seconds ++ ['s']

/-- `averageWordsPerBeat`: mean word count over the beats, 0 when there
are no beats. -/
def averageWordsPerBeat (beats : List JStr) : ℚ :=
  if beats.length = 0 then 0
  else ((beats.map wordCount).sum : ℚ) / (beats.length : ℚ)

/-- `buildSceneLabel`: ordered classification of the beat at `index`
out of `total`. -/
def buildSceneLabel (index total : Nat) (voiceover : JStr) : JStr :=
  if index = 0 then "Opening Hook".toList
  else if index = total - 1 then "Closing Insight".toList
  else if containsSub (lowerL voiceover) "learns".toList ||
      containsSub (lowerL voiceover) "learning".toList then
    "Learning Beat".toList
  else if containsSub (lowerL voiceover) "predict".toList ||
      containsSub (lowerL voiceover) "recognize".toList then
    "Application Beat".toList
  else "Beat ".toList ++ natChars (index + 1)

/-- The fixed three-sentence default narrative of `parseStoryBeats`. -/
def defaultBeats : List JStr :=
  ["Artificial intelligence studies patterns in data to learn how the world works.".toList,
   "By watching thousands of examples, it recognizes relationships and makes predictions.".toList,
   "With every iteration, the system fine-tunes itself, improving just like human learning.".toList]

/-- `parseStoryBeats`: split the story into trimmed non-empty lines; if
none remain, return the default narrative; otherwise split every line
into trimmed non-empty sentences and flatten. -/
def parseStoryBeats (story : JStr) : List JStr :=
  let lines := ((chunks (· = '\n') story).map trimJs).filter strTruthy
  if lines.isEmpty then defaultBeats
  else lines.flatMap fun paragraph =>
    ((sentSplit paragraph).map trimJs).filter strTruthy

/-- `extractKeywordsFromStory`: lowercase the text, replace every
character outside `[a-z0-9\s]` by a space, split on whitespace, keep
tokens longer than two characters that are not stop words, count them
in first-encounter order, sort stably by descending count, and keep the
first eight words. -/
def extractKeywordsFromStory (story : JStr) : List JStr :=
  let cleaned :=
    (lowerL story).map fun c =>
      if isLowerAZ c || isDigit09 c || isJsWs c then c else ' '
  let toks :=
    (chunks isJsWs cleaned).filter fun w => 2 < w.length && w ∉ stopWords
  let counts := toks.foldl (fun m w => bumpCount w m) []
  ((sortDesc counts).take 8).map Prod.fst

/-- The caller-supplied keywords: the raw keyword string split on
`[,;\n]+`, each piece trimmed, empty pieces dropped, lowercased, in
original order. -/
def providedKeywords (rawKeywords : JStr) : List JStr :=
  (((chunks (fun c => c = ',' || c = ';' || c = '\n') rawKeywords).map
    trimJs).filter strTruthy).map lowerL

/-- `deriveKeywords`: caller keywords split on `[,;\n]+`, trimmed,
non-empty, lowercased; then keywords extracted from
`topic ++ ". " ++ story`; concatenated, de-duplicated keeping first
occurrences, and each entry normalized by the whole-word `ai` → `AI`
replacement. -/
def deriveKeywords (topic story rawKeywords : JStr) : List JStr :=
  let provided := providedKeywords rawKeywords
  let fallback := extractKeywordsFromStory (topic ++ ". ".toList ++ story)
  (dedupFirst [] (provided ++ fallback)).map (replWA false)

/-- `selectKeywordForScene`: first keyword contained (case-insensitively)
in the beat; otherwise the keyword at `index mod length`, the first
keyword, or the literal `insight`. -/
def selectKeywordForScene (voiceover : JStr) (keywords : List JStr)
    (index : Nat) : JStr :=
  match keywords.find? fun k => containsSub (lowerL voiceover) (lowerL k) with
  | some k => k
  | none =>
    match (if keywords.length = 0 then none
           else keywords.get? (index % keywords.length)) with
    | some k => k
    | none =>
      match keywords.get? 0 with
      | some k => k
      | none => "insight".toList

/-- `createOverlay`: normalize `ai` → `AI` everywhere in the beat, strip
characters outside `[a-zA-Z0-9\s]`, keep words longer than two
characters, take the first six joined by spaces and capitalize; when
empty fall back to a key-idea line built from the keyword. -/
def createOverlay (voiceover keyword : JStr) : JStr :=
  let condensed :=
    joinSep [' ']
      ((((chunks isJsWs
        ((replAA voiceover).filter fun c =>
          isUpperAZ c || isLowerAZ c || isDigit09 c || isJsWs c)).filter
            fun w => 2 < w.length)).take 6)
  if strTruthy condensed then capitalizeL condensed
  else "Key idea: ".toList ++ capitalizeL keyword

/-- Template interpolation of a possibly-`undefined` string: JavaScript
renders `undefined` inside a template literal as the text
`undefined`. -/
def undefInterp : Option JStr → JStr
  | some s => s
  | none => "undefined".toList

/-- `createVisualDirection`: ordered substring rules over the lowercased
beat, falling back to an abstract direction using the first two palette
colors.  The aspect guidance may be the inherited prototype member
(`none`), whose `framing` read interpolates as `undefined`. -/
def createVisualDirection (voiceover keyword : JStr) (mp : MoodProfile)
    (ap : Option AspectConcept) : JStr :=
  let lower := lowerL voiceover
  if containsSub lower "data".toList || containsSub lower "patterns".toList then
    "Visualize flowing data points morphing into a neural network mesh; ".toList ++
      mp.motion ++ " with ".toList ++ mp.lighting ++ ['.']
  else if containsSub lower "predict".toList ||
      containsSub lower "outcomes".toList then
    "Show predictive dashboards coming to life with confident highlights; ".toList ++
      undefInterp (ap.map AspectConcept.framing)
  else if containsSub lower "learn".toList ||
      containsSub lower "training".toList then
    "Illustrate an AI training loop with layered animations that progressively refine, paired with ".toList ++
      mp.motion ++ ['.']
  else if containsSub lower "experience".toList ||
      containsSub lower "humans".toList then
    "Contrast human learning and machine learning through mirrored compositions, gently lit to stay ".toList ++
      mp.lighting ++ ['.']
  else
    "Create calm, abstract imagery around ".toList ++ keyword ++
      ", using ".toList ++ mp.colorPalette.headD [] ++ " and ".toList ++
      (mp.colorPalette.getD 1 []) ++ " accents.".toList

/-- `createSupportingAssets`: conditional asset lines plus the
unconditional B-roll line. -/
def createSupportingAssets (voiceover keyword : JStr) : List JStr :=
  let lower := lowerL voiceover
  (if containsSub lower "data".toList then
    ["Overlay graph that pulses in sync with narration.".toList] else []) ++
  (if containsSub lower "predict".toList then
    ["HUD-style animation showing probability bars filling up.".toList] else []) ++
  (if containsSub lower "adjust".toList ||
      containsSub lower "improves".toList then
    ["Progress bar that subtly advances with each beat.".toList] else []) ++
  ["B-roll: contextual visuals highlighting ".toList ++ keyword ++ ['.']]

/-- The separator of the generated title, exactly the three characters
that appear between the spaces in the source literal (code points
0x00e2, 0x20ac, 0x201d). -/
def titleSep : JStr :=
  [' ', Char.ofNat 0xe2, Char.ofNat 0x20ac, Char.ofNat 0x201d, ' ']

/-- One scene of the plan, the body of the `storyBeats.map` closure in
`generateVideoScript`. -/
def sceneFor (keywords : List JStr) (mp : MoodProfile)
    (ap : Option AspectConcept) (total index : Nat)
    (voiceover : JStr) : ScenePlan :=
  let primaryKeyword := selectKeywordForScene voiceover keywords index
  { id := index + 1
    label := buildSceneLabel index total voiceover
    voiceover := voiceover
    duration := formatDuration (estimateDurationSeconds voiceover)
    visuals := createVisualDirection voiceover primaryKeyword mp ap
    overlay := createOverlay voiceover primaryKeyword
    assets := createSupportingAssets voiceover primaryKeyword }

/-- The story after `replace(/\r/g, "")` and `trim()`. -/
def trimmedStoryOf (form : ScriptForm) : JStr :=
  trimJs (form.story.filter (· ≠ '\r'))

/-- The beats the plan is built from. -/
def storyBeatsOf (form : ScriptForm) : List JStr :=
  parseStoryBeats (trimmedStoryOf form)

/-- The derived keyword list of the plan. -/
def keywordsOf (form : ScriptForm) : List JStr :=
  deriveKeywords form.topic (trimmedStoryOf form) form.keywords

/-- The scene list of the plan, for the resolved mood profile and
aspect lookup. -/
def scenesOf (form : ScriptForm) (mp : MoodProfile)
    (apOpt : Option AspectConcept) : List ScenePlan :=
  let storyBeats := storyBeatsOf form
  storyBeats.enum.map fun p =>
    sceneFor (keywordsOf form) mp apOpt storyBeats.length p.1 p.2

/-- `generateVideoScript`.  Failure paths are modelled as `Option`:
the accesses `scenes[0]` and `scenes[scenes.length - 1]` would be
`undefined` on an empty scene list and the subsequent field reads
would throw; a mood key resolving to an inherited prototype member
makes `moodProfile.colorPalette[0]` (else-branch visuals) or the
unconditional `moodProfile.audio.toLowerCase()` (production notes)
throw; a language key resolving to an inherited prototype member makes
the subtitle's `languageLabel.toLowerCase()` throw.  The function
returns `none` exactly when one of these failures would occur.  An
aspect key resolving to an inherited prototype member does not fail:
its `framing` read interpolates as `undefined` in the visuals text and
its `safeZone` read puts the value `undefined` into the notes array
(`none` in the entry's `Option`). -/
def generateVideoScriptE (form : ScriptForm) : Option VideoScript :=
  let storyBeats := storyBeatsOf form
  let keywords := keywordsOf form
  match moodProfileOf form.mood, languageLabelOf form.language with
  | some mp, some languageLabel =>
    let apOpt := aspectProfileOf form.aspectRatioKey
    let scenes := scenesOf form mp apOpt
    match scenes.head?, scenes.getLast? with
    | some openingScene, some closingScene =>
      some
        { title := form.topic ++ titleSep ++ capitalizeL mp.voiceTone
          subtitle := "A ".toList ++ lowerL languageLabel ++
            " explainer crafted for a ".toList ++ form.aspectRatioKey ++
            " frame.".toList
          hook := mp.hookVerb ++ " viewers with: \"".toList ++
            openingScene.voiceover ++ "\"".toList
          callToAction := "Close by reinforcing \"".toList ++
            closingScene.voiceover ++
            "\" and invite viewers to explore how they can apply AI in everyday workflows.".toList
          aspectRatioKey := form.aspectRatioKey
          mood := form.mood
          language := languageLabel
          pacing := mp.pacing
          audioRecommendation := mp.audio
          colorPalette := mp.colorPalette
          keywords := keywords
          narrationStyle := capitalizeL mp.voiceTone ++
            " delivered in ".toList ++ languageLabel ++
            ", with natural pauses that land every ".toList ++
            natChars (roundDiv (storyBeats.map wordCount).sum
              storyBeats.length) ++
            " words.".toList
          scenes := scenes
          productionNotes :=
            [apOpt.map AspectConcept.safeZone,
             some ("Underscore narration with ".toList ++ lowerL mp.audio ++
               " mixed at -18 LUFS for clarity.".toList),
             some ("Animate key phrases like ".toList ++
               joinSep ", ".toList ((keywords.take 3).map capitalizeL) ++
               " using ".toList ++ mp.motion ++ ['.'])] }
    | _, _ => none
  | _, _ => none

/-- URL search parameters, modelled as an ordered key-value list. -/
abbrev Params := List (JStr × JStr)

/-- `URLSearchParams.get`: the value of the first entry with the key,
or `none`. -/
def paramsGet (ps : Params) (k : JStr) : Option JStr :=
  (ps.find? fun p => p.1 = k).map Prod.snd

/-- `URLSearchParams.set`: replace the entries with the key, or append
a fresh entry when absent. -/
def paramsSet (ps : Params) (k v : JStr) : Params :=
  if ps.any (fun p => p.1 = k) then
    ps.map fun p => if p.1 = k then (k, v) else p
  else ps ++ [(k, v)]

/-- `DEFAULT_FORM` of the page component. -/
def defaultForm : ScriptForm where
  topic := "How AI Works".toList
  story := ("Artificial intelligence is a system that learns patterns from data.\nIt studies thousands of examples to understand how things relate.\nOnce trained, it can recognize images, predict outcomes, or generate text.\nAI improves through repeated learning, adjusting itself each time.\nIn simple terms, AI learns from experience, just like humans do.").toList
  aspectRatioKey := "16:9".toList
  mood := "calm".toList
  keywords := "AI basics, machine learning, neural networks, technology explained, how AI works".toList
  language := "en".toList

/-- `buildSearchParams`: encode a form as the six `set` calls of the
source, in order. -/
def buildSearchParams (form : ScriptForm) : Params :=
  let p := paramsSet [] "topic".toList form.topic
  let p := paramsSet p "story".toList form.story
  let p := paramsSet p "aspect_ratio".toList form.aspectRatioKey
  let p := paramsSet p "mood".toList form.mood
  let p := paramsSet p "keywords".toList form.keywords
  paramsSet p "language".toList form.language

/-- `loadFormFromParams`: start from the defaults and overwrite every
field present in the parameters, reading `aspect_ratio` before
`aspectRatio` and `keywords` before `related_keywords`; a `null`
parameter object yields the defaults. -/
def loadFormFromParams (params : Option Params) : ScriptForm :=
  match params with
  | none => defaultForm
  | some ps =>
    { topic := (paramsGet ps "topic".toList).getD defaultForm.topic
      story := (paramsGet ps "story".toList).getD defaultForm.story
      aspectRatioKey :=
        ((paramsGet ps "aspect_ratio".toList).or
          (paramsGet ps "aspectRatio".toList)).getD defaultForm.aspectRatioKey
      mood := (paramsGet ps "mood".toList).getD defaultForm.mood
      keywords :=
        ((paramsGet ps "keywords".toList).or
          (paramsGet ps "related_keywords".toList)).getD defaultForm.keywords
      language := (paramsGet ps "language".toList).getD defaultForm.language }

/-- str truthiness is non-emptiness. -/
theorem strTruthy_iff {s : JStr} : strTruthy s = true ↔ s ≠ [] := by
  simp [strTruthy]

/-- A non-whitespace member of a list survives `dropWhile isJsWs`. -/
theorem mem_dropWhile_not {c : Char} {l : JStr} (h : c ∈ l)
    (hc : isJsWs c = false) : c ∈ l.dropWhile isJsWs := by
  induction l with
  | nil => cases h
  | cons d t ih =>
    rw [List.dropWhile_cons]
    rcases List.mem_cons.mp h with rfl | ht
    · simp [hc]
    · by_cases hd : isJsWs d
      · simpa [hd] using ih ht
      · simp [hd, ht]

/-- A non-whitespace member of a list survives `trimJs`. -/
theorem mem_trimJs {c : Char} {l : JStr} (h : c ∈ l)
    (hc : isJsWs c = false) : c ∈ trimJs l := by
  unfold trimJs
  exact List.mem_reverse.mpr
    (mem_dropWhile_not (List.mem_reverse.mpr (mem_dropWhile_not h hc)) hc)

/-- A list with a non-whitespace member has a non-empty trim. -/
theorem trimJs_ne_nil {c : Char} {l : JStr} (h : c ∈ l)
    (hc : isJsWs c = false) : trimJs l ≠ [] :=
  List.ne_nil_of_mem (mem_trimJs h hc)

/-- A non-empty trimmed string contains a non-whitespace character. -/
theorem exists_not_ws_of_trimJs_ne_nil {l : JStr} (h : trimJs l ≠ []) :
    ∃ c ∈ trimJs l, isJsWs c = false := by
  unfold trimJs at *
  have hdn : (l.dropWhile isJsWs).reverse.dropWhile isJsWs ≠ [] := by
    intro hnil
    exact h (by simp [hnil])
  exact ⟨_, List.mem_reverse.mpr (List.head_mem hdn),
    List.head_dropWhile_not isJsWs _ hdn⟩

/-- Every piece family produced by `sentGo` from input containing a
non-whitespace character (accumulator included) has a piece with a
non-whitespace character. -/
theorem sentGo_exists (acc l : JStr) :
    (∃ c ∈ acc ++ l, isJsWs c = false) →
    ∃ piece ∈ sentGo acc l, ∃ d ∈ piece, isJsWs d = false := by
  induction acc, l using sentGo.induct with
  | case1 acc =>
    intro ⟨c, hm, hc⟩
    exact ⟨acc.reverse, by simp [sentGo], c, by simpa using hm, hc⟩
  | case2 acc c rest hcond ih =>
    intro _
    rw [sentGo, if_pos hcond]
    have hpu : isEndPunct (acc.headD ' ') = true := by
      rcases Bool.and_eq_true_iff.mp hcond with ⟨h1, _⟩
      exact (Bool.and_eq_true_iff.mp h1).1
    have hane : acc ≠ [] := by
      intro h
      rw [h] at hpu
      simp [isEndPunct] at hpu
    refine ⟨acc.reverse, List.mem_cons_self _ _, acc.headD ' ', ?_, ?_⟩
    · rcases acc with _ | ⟨a, t⟩
      · exact absurd rfl hane
      · simp
    · simp only [isEndPunct, Bool.or_eq_true, decide_eq_true_eq] at hpu
      rcases hpu with (h | h) | h <;> rw [h] <;> rfl
  | case3 acc c rest hcond ih =>
    intro ⟨d, hm, hd⟩
    rw [sentGo, if_neg hcond]
    apply ih
    refine ⟨d, ?_, hd⟩
    simp at hm ⊢
    tauto

/-- The beat list produced by the story segmenter is never empty. -/
theorem parseStoryBeats_ne_nil (story : JStr) : parseStoryBeats story ≠ [] := by
  unfold parseStoryBeats
  by_cases hE : ((chunks (· = '\n') story).map trimJs).filter strTruthy = []
  · rw [hE]
    simp [defaultBeats]
  · have hne : ¬ (((chunks (· = '\n') story).map trimJs).filter strTruthy).isEmpty = true := by
      simpa [List.isEmpty_iff] using hE
    rw [if_neg hne]
    rcases hl : ((chunks (· = '\n') story).map trimJs).filter strTruthy with _ | ⟨line, rest⟩
    · exact absurd hl hE
    · have hmem : line ∈ ((chunks (· = '\n') story).map trimJs).filter strTruthy := by
        rw [hl]; exact List.mem_cons_self _ _
      have h2 := List.mem_filter.mp hmem
      have hlinene : line ≠ [] := strTruthy_iff.mp h2.2
      obtain ⟨orig, _, horig⟩ := List.mem_map.mp h2.1
      obtain ⟨c, hcm, hcw⟩ : ∃ c ∈ line, isJsWs c = false := by
        rw [← horig]
        exact exists_not_ws_of_trimJs_ne_nil (by rw [horig]; exact hlinene)
      obtain ⟨piece, hpm, d, hdm, hdw⟩ :=
        sentGo_exists [] line ⟨c, by simpa using hcm, hcw⟩
      have hkeep : trimJs piece ∈ ((sentSplit line).map trimJs).filter strTruthy :=
        List.mem_filter.mpr ⟨List.mem_map.mpr ⟨piece, hpm, rfl⟩,
          strTruthy_iff.mpr (trimJs_ne_nil hdm hdw)⟩
      intro hflat
      rw [List.flatMap_cons] at hflat
      have hnil := List.append_eq_nil.mp hflat
      rw [hnil.1] at hkeep
      cases hkeep

/-- The scene list of every request is non-empty. -/
theorem scenesOf_ne_nil (form : ScriptForm) (mp : MoodProfile)
    (apOpt : Option AspectConcept) : scenesOf form mp apOpt ≠ [] := by
  unfold scenesOf
  intro h
  have hlen := congrArg List.length h
  simp only [List.length_map, List.enum_length, List.length_nil] at hlen
  exact parseStoryBeats_ne_nil _ (List.length_eq_zero.mp hlen)

/-- A mood key that is not an `Object.prototype` property name always
resolves to a genuine profile. -/
theorem moodProfileOf_isSome (m : JStr) (h : m ∉ objectProtoKeys) :
    ∃ mp, moodProfileOf m = some mp := by
  unfold moodProfileOf
  by_cases h1 : m = "calm".toList
  · rw [if_pos h1]; exact ⟨_, rfl⟩
  rw [if_neg h1]
  by_cases h2 : m = "energetic".toList
  · rw [if_pos h2]; exact ⟨_, rfl⟩
  rw [if_neg h2]
  by_cases h3 : m = "inspirational".toList
  · rw [if_pos h3]; exact ⟨_, rfl⟩
  rw [if_neg h3, if_neg h]
  exact ⟨_, rfl⟩

/-- A language key that is not an `Object.prototype` property name
always resolves to a label. -/
theorem languageLabelOf_isSome (l : JStr) (h : l ∉ objectProtoKeys) :
    ∃ s, languageLabelOf l = some s := by
  unfold languageLabelOf
  by_cases h1 : l = "en".toList
  · rw [if_pos h1]; exact ⟨_, rfl⟩
  rw [if_neg h1]
  by_cases h2 : l = "es".toList
  · rw [if_pos h2]; exact ⟨_, rfl⟩
  rw [if_neg h2]
  by_cases h3 : l = "fr".toList
  · rw [if_pos h3]; exact ⟨_, rfl⟩
  rw [if_neg h3]
  by_cases h4 : l = "de".toList
  · rw [if_pos h4]; exact ⟨_, rfl⟩
  rw [if_neg h4]
  by_cases h5 : l = "pt".toList
  · rw [if_pos h5]; exact ⟨_, rfl⟩
  rw [if_neg h5]
  by_cases h6 : l = "it".toList
  · rw [if_pos h6]; exact ⟨_, rfl⟩
  rw [if_neg h6]
  by_cases h7 : l = "ja".toList
  · rw [if_pos h7]; exact ⟨_, rfl⟩
  rw [if_neg h7]
  by_cases h8 : l = "zh".toList
  · rw [if_pos h8]; exact ⟨_, rfl⟩
  rw [if_neg h8, if_neg h]
  exact ⟨_, rfl⟩

/-- C1 (amended): the generator returns a plan for every request whose
mood and language keys are not `Object.prototype` property names:
other unknown categorical values degrade to default profiles, empty
story text degrades to the default narrative, and the scene accesses
that could fail on an empty scene list always succeed.  (An aspect key
that is a prototype property name still succeeds.) -/
theorem claim1_generate_total (form : ScriptForm)
    (hm : form.mood ∉ objectProtoKeys)
    (hl : form.language ∉ objectProtoKeys) :
    ∃ plan, generateVideoScriptE form = some plan := by
  obtain ⟨mp, hmp⟩ := moodProfileOf_isSome form.mood hm
  obtain ⟨ll, hll⟩ := languageLabelOf_isSome form.language hl
  have hs := scenesOf_ne_nil form mp (aspectProfileOf form.aspectRatioKey)
  rcases hhead : (scenesOf form mp
      (aspectProfileOf form.aspectRatioKey)).head? with _ | o
  · exact absurd (List.head?_eq_none_iff.mp hhead) hs
  rcases hlast : (scenesOf form mp
      (aspectProfileOf form.aspectRatioKey)).getLast? with _ | cl
  · exact absurd (List.getLast?_eq_none_iff.mp hlast) hs
  have hsome : (generateVideoScriptE form).isSome = true := by
    simp only [generateVideoScriptE, hmp, hll, hhead, hlast,
      Option.isSome_some]
  exact ⟨(generateVideoScriptE form).get hsome, (Option.some_get hsome).symm⟩

/-- A concrete request whose mood field is the `Object.prototype`
property name `toString`. -/
def protoMoodForm : ScriptForm where
  topic := "t".toList
  story := "We run tests.".toList
  aspectRatioKey := "16:9".toList
  mood := "toString".toList
  keywords := "".toList
  language := "en".toList

/-- A concrete request whose language field is the `Object.prototype`
property name `valueOf`. -/
def protoLangForm : ScriptForm where
  topic := "t".toList
  story := "We run tests.".toList
  aspectRatioKey := "16:9".toList
  mood := "calm".toList
  keywords := "".toList
  language := "valueOf".toList

/-- C1 as stated is false: generation fails for a request whose mood
(or language) key is an `Object.prototype` property name — the lookup
yields the inherited member past the `??` default and the later method
calls throw. -/
theorem claim1_counterexample :
    generateVideoScriptE protoMoodForm = none ∧
    generateVideoScriptE protoLangForm = none := by
  refine ⟨by decide, by decide⟩


/-- A produced plan carries the keyword list of its request and the
scene list built from its resolved mood profile and aspect lookup. -/
theorem generate_fields (form : ScriptForm) (plan : VideoScript)
    (h : generateVideoScriptE form = some plan) :
    plan.keywords = keywordsOf form ∧
    ∃ mp, moodProfileOf form.mood = some mp ∧
      plan.scenes = scenesOf form mp (aspectProfileOf form.aspectRatioKey) := by
  simp only [generateVideoScriptE] at h
  rcases hmood : moodProfileOf form.mood with _ | mp
  · simp only [hmood] at h
    exact Option.noConfusion h
  rcases hlang : languageLabelOf form.language with _ | ll
  · simp only [hmood, hlang] at h
    exact Option.noConfusion h
  simp only [hmood, hlang] at h
  rcases hhead : (scenesOf form mp
      (aspectProfileOf form.aspectRatioKey)).head? with _ | o
  · simp only [hhead] at h
    exact Option.noConfusion h
  rcases hlast : (scenesOf form mp
      (aspectProfileOf form.aspectRatioKey)).getLast? with _ | cl
  · simp only [hhead, hlast] at h
    exact Option.noConfusion h
  simp only [hhead, hlast] at h
  obtain rfl := (Option.some_inj.mp h).symm
  exact ⟨rfl, mp, rfl, rfl⟩

/-- Every scene of the scene list is the scene built for some indexed
beat. -/
theorem mem_scenesOf (form : ScriptForm) (mp : MoodProfile)
    (apOpt : Option AspectConcept) (s : ScenePlan)
    (hs : s ∈ scenesOf form mp apOpt) :
    ∃ i v, (storyBeatsOf form)[i]? = some v ∧
      s = sceneFor (keywordsOf form) mp apOpt
        (storyBeatsOf form).length i v := by
  unfold scenesOf at hs
  obtain ⟨⟨i, v⟩, hm, rfl⟩ := List.mem_map.mp hs
  exact ⟨i, v, List.mem_enum_iff_getElem?.mp hm, rfl⟩

/-- There are as many scenes as beats. -/
theorem scenesOf_length (form : ScriptForm) (mp : MoodProfile)
    (apOpt : Option AspectConcept) :
    (scenesOf form mp apOpt).length = (storyBeatsOf form).length := by
  simp [scenesOf]

/-- The scene at index `i` is the scene built for the beat at `i`. -/
theorem scenesOf_get (form : ScriptForm) (mp : MoodProfile)
    (apOpt : Option AspectConcept) (i : Nat)
    (hi : i < (scenesOf form mp apOpt).length) :
    (scenesOf form mp apOpt).get ⟨i, hi⟩ =
      sceneFor (keywordsOf form) mp apOpt (storyBeatsOf form).length i
        ((storyBeatsOf form).get
          ⟨i, by simpa [scenesOf_length] using hi⟩) := by
  simp [scenesOf, List.get_eq_getElem, List.getElem_map, List.getElem_enum]

/-- The executable rounding agrees with the mathematical
floor-of-plus-one-half. -/
theorem jsRound_eq (q : ℚ) : jsRound q = ⌊q + 1 / 2⌋ := by
  unfold jsRound
  rw [Rat.floor_def', ← Rat.floor_def]

/-- The integral rounded division agrees with `Math.round` of the
rational quotient. -/
theorem roundDiv_eq_jsRound (a b : ℕ) (hb : 0 < b) :
    (roundDiv a b : ℤ) = jsRound ((a : ℚ) / (b : ℚ)) := by
  rw [jsRound_eq, roundDiv]
  have hq : (a : ℚ) / (b : ℚ) + 1 / 2 =
      (((2 * a + b : ℕ) : ℤ) : ℚ) / ((2 * b : ℕ) : ℚ) := by
    have hb0 : (b : ℚ) ≠ 0 := Nat.cast_ne_zero.mpr hb.ne'
    push_cast
    field_simp
    ring
  rw [hq, Rat.floor_intCast_div_natCast ((2 * a + b : ℕ) : ℤ) (2 * b)]
  exact Int.ofNat_tdiv _ _

/-- The duration estimate is the clamped rounding of the rational
quotient word count over 2.7. -/
theorem estimate_eq_round (text : JStr) :
    estimateDurationSeconds text =
      clampI (jsRound ((wordCount text : ℚ) / (27 / 10))) 4 9 := by
  unfold estimateDurationSeconds
  have h10 : ((wordCount text : ℚ)) / (27 / 10) =
      ((10 * wordCount text : ℕ) : ℚ) / ((27 : ℕ) : ℚ) := by
    push_cast
    ring
  rw [h10, ← roundDiv_eq_jsRound (10 * wordCount text) 27 (by norm_num)]

/-- Duration prescribed by the claim: word count of the voiceover
divided by 2.7, rounded to the nearest integer, clamped to the range
[4, 9].  (The quotient is never half-integral, so nearest-integer
rounding is unambiguous and `round` matches it.) -/
def durationSpec (voiceover : JStr) : ℤ :=
  min 9 (max 4 (round ((wordCount voiceover : ℚ) / (27 / 10))))

/-- An all-empty plan, used only as a harmless `Option.getD` default
when instantiating proved theorems at concrete requests. -/
def emptyPlan : VideoScript where
  title := []
  subtitle := []
  hook := []
  callToAction := []
  aspectRatioKey := []
  mood := []
  language := []
  pacing := []
  audioRecommendation := []
  colorPalette := []
  keywords := []
  narrationStyle := []
  scenes := []
  productionNotes := []

/-- An all-empty scene, used only as a harmless default when
instantiating proved theorems at concrete requests. -/
def emptyScene : ScenePlan where
  id := 0
  label := []
  voiceover := []
  duration := []
  visuals := []
  overlay := []
  assets := []

/-- A small concrete request used to instantiate proved theorems. -/
def wForm : ScriptForm where
  topic := "t".toList
  story := "Data helps here. It can predict well.".toList
  aspectRatioKey := "9:16".toList
  mood := "energetic".toList
  keywords := "ai".toList
  language := "fr".toList

/-- Witness for amended C1 at a concrete request. -/
theorem claim1_generate_total_witness :
    ∃ plan, generateVideoScriptE wForm = some plan :=
  claim1_generate_total wForm (by decide) (by decide)

/-- C2: for every request and every scene of its plan, the scene
duration is the voiceover word count divided by 2.7, rounded to the
nearest integer, clamped to [4, 9] and rendered as that integer
followed by the suffix `s`; in particular the integer lies between 4
and 9. -/
theorem claim2_scene_duration (form : ScriptForm) (plan : VideoScript)
    (h : generateVideoScriptE form = some plan) :
    ∀ scene ∈ plan.scenes, ∃ n : ℤ, 4 ≤ n ∧ n ≤ 9 ∧
      scene.duration = intChars n ++ ['s'] ∧
      n = durationSpec scene.voiceover := by
  intro scene hs
  obtain ⟨-, mp, -, hsc⟩ := generate_fields form plan h
  rw [hsc] at hs
  obtain ⟨i, v, hv, rfl⟩ := mem_scenesOf form mp
    (aspectProfileOf form.aspectRatioKey) scene hs
  refine ⟨estimateDurationSeconds v, ?_, ?_, rfl, ?_⟩
  · exact le_min (le_max_right _ _) (by norm_num)
  · exact min_le_right _ _
  · show estimateDurationSeconds v = durationSpec v
    rw [estimate_eq_round]
    unfold durationSpec clampI
    rw [jsRound_eq, ← round_eq, min_comm, max_comm]

/-- Witness for C2 at a concrete request and its first scene. -/
theorem claim2_scene_duration_witness :
    ∃ n : ℤ, 4 ≤ n ∧ n ≤ 9 ∧
      (((generateVideoScriptE wForm).getD emptyPlan).scenes.headD
        emptyScene).duration = intChars n ++ ['s'] ∧
      n = durationSpec
        (((generateVideoScriptE wForm).getD emptyPlan).scenes.headD
          emptyScene).voiceover :=
  claim2_scene_duration wForm ((generateVideoScriptE wForm).getD emptyPlan)
    (by decide) _ (by decide)

/-- Scene label prescribed by the claim, first matching rule in order:
index 0 gives Opening Hook; index N-1 gives Closing Insight; a beat
containing `learns` or `learning` (case-insensitively) gives Learning
Beat; a beat containing `predict` or `recognize` gives Application
Beat; otherwise `Beat` followed by the 1-based index. -/
def labelSpec (index total : Nat) (beat : JStr) : JStr :=
  if index = 0 then "Opening Hook".toList
  else if index = total - 1 then "Closing Insight".toList
  else if containsSub (lowerL beat) "learns".toList ||
      containsSub (lowerL beat) "learning".toList then
    "Learning Beat".toList
  else if containsSub (lowerL beat) "predict".toList ||
      containsSub (lowerL beat) "recognize".toList then
    "Application Beat".toList
  else "Beat ".toList ++ natChars (index + 1)

/-- The source's label builder implements the claimed rule list. -/
theorem buildSceneLabel_eq_labelSpec (index total : Nat) (v : JStr) :
    buildSceneLabel index total v = labelSpec index total v := rfl

/-- C3: the label of the scene at index `i` out of `N` is determined by
the claimed first-match rule list; in particular a single-beat story
(`N = 1`) is labelled Opening Hook, not Closing Insight. -/
theorem claim3_scene_labels (form : ScriptForm) (plan : VideoScript)
    (h : generateVideoScriptE form = some plan) :
    (∀ i (hi : i < plan.scenes.length),
      (plan.scenes.get ⟨i, hi⟩).label =
        labelSpec i plan.scenes.length
          (plan.scenes.get ⟨i, hi⟩).voiceover) ∧
    ∀ v : JStr, buildSceneLabel 0 1 v = "Opening Hook".toList := by
  constructor
  · obtain ⟨-, mp, -, hsc⟩ := generate_fields form plan h
    rw [hsc]
    intro i hi
    rw [scenesOf_get form mp (aspectProfileOf form.aspectRatioKey) i hi]
    simp only [scenesOf_length]
    exact buildSceneLabel_eq_labelSpec _ _ _
  · intro v
    rfl

/-- Witness for C3 at a concrete request, its first scene, and a
single-beat label. -/
theorem claim3_scene_labels_witness :
    (((generateVideoScriptE wForm).getD emptyPlan).scenes.get
        ⟨0, by decide⟩).label =
      labelSpec 0 ((generateVideoScriptE wForm).getD emptyPlan).scenes.length
        (((generateVideoScriptE wForm).getD emptyPlan).scenes.get
          ⟨0, by decide⟩).voiceover ∧
    buildSceneLabel 0 1 "x".toList = "Opening Hook".toList :=
  ⟨(claim3_scene_labels wForm ((generateVideoScriptE wForm).getD emptyPlan)
      (by decide)).1 0 (by decide),
   (claim3_scene_labels wForm ((generateVideoScriptE wForm).getD emptyPlan)
      (by decide)).2 "x".toList⟩

/-- C5 as stated is false: the names of `Object.prototype` properties
such as `toString` are outside every table yet do not resolve to the
documented defaults — the bracket lookup finds the inherited member
instead. -/
theorem claim5_counterexample :
    moodProfileOf "toString".toList ≠ moodProfileOf "calm".toList ∧
    aspectProfileOf "toString".toList ≠ aspectProfileOf "16:9".toList ∧
    languageLabelOf "toString".toList ≠ some "English".toList := by
  refine ⟨by decide, by decide, by decide⟩

/-- C5 (amended): profile resolution raises no error and uses the
documented defaults for every unknown key that is not an
`Object.prototype` property name: such a mood key resolves to exactly
the calm profile, such an aspect-ratio key to the 16:9 profile, and
such a language key to the label `English`; prototype property names
instead yield the inherited member. -/
theorem claim5_profile_defaults :
    (∀ m : JStr, m ≠ "calm".toList → m ≠ "energetic".toList →
      m ≠ "inspirational".toList → m ∉ objectProtoKeys →
      moodProfileOf m = moodProfileOf "calm".toList) ∧
    (∀ a : JStr, a ≠ "16:9".toList → a ≠ "9:16".toList →
      a ≠ "1:1".toList → a ∉ objectProtoKeys →
      aspectProfileOf a = aspectProfileOf "16:9".toList) ∧
    ∀ l : JStr,
      l ∉ ["en", "es", "fr", "de", "pt", "it", "ja", "zh"].map
        String.toList →
      l ∉ objectProtoKeys →
      languageLabelOf l = some "English".toList := by
  refine ⟨fun m h1 h2 h3 hp => ?_, fun a h1 h2 h3 hp => ?_,
    fun l hl hp => ?_⟩
  · unfold moodProfileOf
    rw [if_neg h1, if_neg h2, if_neg h3, if_neg hp, if_pos rfl]
  · unfold aspectProfileOf
    rw [if_neg h1, if_neg h2, if_neg h3, if_neg hp, if_pos rfl]
  · simp only [List.map_cons, List.map_nil, List.mem_cons,
      List.not_mem_nil, or_false, not_or] at hl
    obtain ⟨n1, n2, n3, n4, n5, n6, n7, n8⟩ := hl
    unfold languageLabelOf
    rw [if_neg n1, if_neg n2, if_neg n3, if_neg n4, if_neg n5, if_neg n6,
      if_neg n7, if_neg n8, if_neg hp]

/-- Witness for amended C5 at the concrete unknown keys `nonexistent`,
`4:3` and `xx`. -/
theorem claim5_profile_defaults_witness :
    moodProfileOf "nonexistent".toList = moodProfileOf "calm".toList ∧
    aspectProfileOf "4:3".toList = aspectProfileOf "16:9".toList ∧
    languageLabelOf "xx".toList = some "English".toList :=
  ⟨claim5_profile_defaults.1 _ (by decide) (by decide) (by decide)
      (by decide),
   claim5_profile_defaults.2.1 _ (by decide) (by decide) (by decide)
      (by decide),
   claim5_profile_defaults.2.2 _ (by decide) (by decide)⟩

/-- The voiceovers of the scene list are exactly the beats. -/
theorem scenesOf_map_voiceover (form : ScriptForm) (mp : MoodProfile)
    (apOpt : Option AspectConcept) :
    (scenesOf form mp apOpt).map ScenePlan.voiceover = storyBeatsOf form := by
  unfold scenesOf
  rw [List.map_map]
  have hc : (ScenePlan.voiceover ∘ fun p : Nat × JStr =>
      sceneFor (keywordsOf form) mp apOpt
        (storyBeatsOf form).length p.1 p.2) = Prod.snd :=
    funext fun p => rfl
  rw [hc, List.enum_map_snd]

/-- A string of whitespace characters trims to the empty string. -/
theorem trimJs_eq_nil {l : JStr} (h : ∀ c ∈ l, isJsWs c = true) :
    trimJs l = [] := by
  unfold trimJs
  rw [List.dropWhile_eq_nil_iff.mpr]
  · rfl
  · intro c hc
    exact h c ((List.dropWhile_sublist _).subset (List.mem_reverse.mp hc))

/-- C4: a request whose story is empty or whitespace-only yields a plan
of exactly 3 scenes whose voiceovers are the fixed default narrative
sentences, and the scene list is non-empty for every request. -/
theorem claim4_default_narrative :
    (∀ form : ScriptForm, (∀ c ∈ form.story, isJsWs c = true) →
      ∀ plan, generateVideoScriptE form = some plan →
        plan.scenes.map ScenePlan.voiceover = defaultBeats ∧
        plan.scenes.length = 3) ∧
    ∀ form plan, generateVideoScriptE form = some plan →
      plan.scenes ≠ [] := by
  constructor
  · intro form hws plan h
    have hbeats : storyBeatsOf form = defaultBeats := by
      unfold storyBeatsOf trimmedStoryOf
      rw [trimJs_eq_nil fun c hc => hws c (List.mem_of_mem_filter hc)]
      rfl
    obtain ⟨-, mp, -, hsc⟩ := generate_fields form plan h
    have hmap : plan.scenes.map ScenePlan.voiceover = defaultBeats := by
      rw [hsc, scenesOf_map_voiceover, hbeats]
    refine ⟨hmap, ?_⟩
    have := congrArg List.length hmap
    simpa using this
  · intro form plan h
    obtain ⟨-, mp, -, hsc⟩ := generate_fields form plan h
    rw [hsc]
    exact scenesOf_ne_nil form mp (aspectProfileOf form.aspectRatioKey)

/-- A whitespace-only concrete request used to instantiate C4. -/
def wsForm : ScriptForm where
  topic := "t".toList
  story := " \n\t ".toList
  aspectRatioKey := "1:1".toList
  mood := "calm".toList
  keywords := "".toList
  language := "en".toList

set_option maxRecDepth 8192 in
/-- Witness for C4 at a whitespace-only story and at a concrete
request. -/
theorem claim4_default_narrative_witness :
    (((generateVideoScriptE wsForm).getD emptyPlan).scenes.map
        ScenePlan.voiceover = defaultBeats ∧
      ((generateVideoScriptE wsForm).getD emptyPlan).scenes.length = 3) ∧
    ((generateVideoScriptE wForm).getD emptyPlan).scenes ≠ [] :=
  ⟨claim4_default_narrative.1 wsForm (by decide)
      ((generateVideoScriptE wsForm).getD emptyPlan) (by decide),
   claim4_default_narrative.2 wForm
      ((generateVideoScriptE wForm).getD emptyPlan) (by decide)⟩

/-- C9: decoding the URL query parameters produced by encoding a
request (reading `aspect_ratio` before `aspectRatio` and `keywords`
before `related_keywords`) reproduces the request in all six fields,
including fields that are empty strings. -/
theorem claim9_params_roundtrip (form : ScriptForm) :
    loadFormFromParams (some (buildSearchParams form)) = form := by
  cases form
  rfl

/-- C8 (divergence witness): at a concrete request the generated title
is the topic, a space, the three characters with code points 0x00e2,
0x20ac, 0x201d (a double-encoded em dash), a space, and the capitalized
voice tone — not the single em dash 0x2014 the claim requires. -/
theorem claim8_title_divergence :
    ((generateVideoScriptE wForm).getD emptyPlan).title =
      "t".toList ++ titleSep ++
        capitalizeL ((moodProfileOf wForm.mood).getD calmProfile).voiceTone ∧
    titleSep ≠ [' ', Char.ofNat 0x2014, ' '] ∧
    ((generateVideoScriptE wForm).getD emptyPlan).title ≠
      "t".toList ++ [' ', Char.ofNat 0x2014, ' '] ++
        capitalizeL ((moodProfileOf wForm.mood).getD calmProfile).voiceTone :=
  ⟨by decide, by decide, by decide⟩

/-- The word-boundary scan keeps the head character unless it starts a
replaced occurrence (which begins with `a` or `A`). -/
theorem replWA_cons (prev : Bool) (c : Char) (l : JStr) :
    (∃ t, replWA prev (c :: l) = c :: t) ∨
    ∃ t, replWA prev (c :: l) = 'A' :: 'I' :: t ∧ (c = 'a' ∨ c = 'A') := by
  match l with
  | [] => exact Or.inl ⟨[], rfl⟩
  | c2 :: rest =>
    by_cases h : (!prev && isAiPair c c2 && boundAfter rest) = true
    · refine Or.inr ⟨replWA true rest, by simp only [replWA]; rw [if_pos h], ?_⟩
      have h1 := (Bool.and_eq_true_iff.mp (Bool.and_eq_true_iff.mp h).1).2
      have h2 := (Bool.and_eq_true_iff.mp h1).1
      simpa using h2
    · exact Or.inl ⟨replWA (isWordChar c) (c2 :: rest),
        by simp only [replWA]; rw [if_neg h]⟩

/-- The word-boundary scan preserves a leading word boundary. -/
theorem replWA_boundAfter (prev : Bool) (l : JStr)
    (h : boundAfter l = true) : boundAfter (replWA prev l) = true := by
  match l with
  | [] => rfl
  | c :: t =>
    have hw : isWordChar c = false := by simpa [boundAfter] using h
    rcases replWA_cons prev c t with ⟨r, hr⟩ | ⟨r, hr, hc⟩
    · rw [hr]
      simpa [boundAfter] using hw
    · rcases hc with rfl | rfl <;> simp [isWordChar, isLowerAZ, isUpperAZ] at hw

/-- The whole-word `ai` → `AI` replacement is idempotent. -/
theorem replWA_idem (prev : Bool) (l : JStr) :
    replWA prev (replWA prev l) = replWA prev l := by
  induction prev, l using replWA.induct with
  | case1 prev => rfl
  | case2 prev c => rfl
  | case3 prev c1 c2 rest h ih =>
    obtain ⟨hp, hai, hbd⟩ : prev = false ∧ isAiPair c1 c2 = true ∧
        boundAfter rest = true := by
      have h1 := Bool.and_eq_true_iff.mp h
      have h2 := Bool.and_eq_true_iff.mp h1.1
      exact ⟨by simpa using h2.1, h2.2, h1.2⟩
    subst hp
    have e1 : replWA false (c1 :: c2 :: rest) =
        'A' :: 'I' :: replWA true rest := by
      simp only [replWA]
      rw [if_pos h]
    rw [e1]
    have hb2 : boundAfter (replWA true rest) = true :=
      replWA_boundAfter true rest hbd
    have e2 : replWA false ('A' :: 'I' :: replWA true rest) =
        'A' :: 'I' :: replWA true (replWA true rest) := by
      rcases hrw : replWA true rest with _ | ⟨d, ts⟩
      · rfl
      · rw [hrw] at hb2
        simp only [replWA]
        rw [if_pos]
        simp [isAiPair, hb2]
    rw [e2, ih]
  | case4 prev c1 c2 rest h ih =>
    have e1 : replWA prev (c1 :: c2 :: rest) =
        c1 :: replWA (isWordChar c1) (c2 :: rest) := by
      simp only [replWA]
      rw [if_neg h]
    rw [e1]
    have hstep : replWA prev (c1 :: replWA (isWordChar c1) (c2 :: rest)) =
        c1 :: replWA (isWordChar c1)
          (replWA (isWordChar c1) (c2 :: rest)) := by
      rcases hshape : replWA (isWordChar c1) (c2 :: rest) with _ | ⟨d, t⟩
      · rfl
      · have hcond : (!prev && isAiPair c1 d && boundAfter t) = false := by
          cases hp : prev with
          | true => rfl
          | false =>
            have hX : (isAiPair c1 c2 && boundAfter rest) = false := by
              rw [hp] at h
              revert h
              cases isAiPair c1 c2 <;> cases boundAfter rest <;> simp
            rcases Bool.and_eq_false_iff.mp hX with hA | hB
            · unfold isAiPair at hA
              rcases Bool.and_eq_false_iff.mp hA with h1 | h2
              · simp [isAiPair, h1]
              · rcases replWA_cons (isWordChar c1) c2 rest with
                  ⟨t', ht'⟩ | ⟨t', ht', hc2⟩
                · rw [hshape] at ht'
                  injection ht' with hd _
                  subst hd
                  simp [isAiPair, h2]
                · rw [hshape] at ht'
                  injection ht' with hd _
                  subst hd
                  simp [isAiPair]
            · rcases rest with _ | ⟨e, rest'⟩
              · simp [boundAfter] at hB
              · have he : isWordChar e = true := by
                  simpa [boundAfter] using hB
                by_cases hIn :
                    (!(isWordChar c1) && isAiPair c2 e && boundAfter rest') =
                      true
                · have einn : replWA (isWordChar c1) (c2 :: e :: rest') =
                      'A' :: 'I' :: replWA true rest' := by
                    simp only [replWA]
                    rw [if_pos hIn]
                  rw [einn] at hshape
                  injection hshape with hd _
                  subst hd
                  simp [isAiPair]
                · have einn : replWA (isWordChar c1) (c2 :: e :: rest') =
                      c2 :: replWA (isWordChar c2) (e :: rest') := by
                    simp only [replWA]
                    rw [if_neg hIn]
                  rw [einn] at hshape
                  injection hshape with hd ht
                  have hbt : boundAfter t = false := by
                    rw [← ht]
                    rcases replWA_cons (isWordChar c2) e rest' with
                      ⟨t2, ht2⟩ | ⟨t2, ht2, _⟩ <;> rw [ht2]
                    · simpa [boundAfter] using he
                    · simp [boundAfter, isWordChar, isUpperAZ]
                  simp [hbt]
        simp only [replWA]
        rw [if_neg (by simp [hcond])]
    rw [hstep, ih]

/-- The anywhere-scan keeps the head character unless it starts a
replaced occurrence. -/
theorem replAA_cons (c : Char) (l : JStr) :
    (∃ t, replAA (c :: l) = c :: t) ∨
    ∃ t, replAA (c :: l) = 'A' :: 'I' :: t := by
  match l with
  | [] => exact Or.inl ⟨[], rfl⟩
  | c2 :: rest =>
    by_cases h : isAiPair c c2 = true
    · exact Or.inr ⟨replAA rest, by simp [replAA, h]⟩
    · exact Or.inl ⟨replAA (c2 :: rest), by simp [replAA, h]⟩

/-- The anywhere `ai` → `AI` replacement is idempotent. -/
theorem replAA_idem (l : JStr) : replAA (replAA l) = replAA l := by
  induction l using replAA.induct with
  | case1 => rfl
  | case2 c => rfl
  | case3 c1 c2 rest h ih =>
    have e1 : replAA (c1 :: c2 :: rest) = 'A' :: 'I' :: replAA rest := by
      simp [replAA, h]
    rw [e1]
    have e2 : replAA ('A' :: 'I' :: replAA rest) =
        'A' :: 'I' :: replAA (replAA rest) := by
      simp [replAA, isAiPair]
    rw [e2, ih]
  | case4 c1 c2 rest h ih =>
    have hb : isAiPair c1 c2 = false := by simpa using h
    have e1 : replAA (c1 :: c2 :: rest) = c1 :: replAA (c2 :: rest) := by
      simp [replAA, hb]
    rw [e1]
    rcases replAA_cons c2 rest with ⟨t, ht⟩ | ⟨t, ht⟩
    · have e2 : replAA (c1 :: c2 :: t) = c1 :: replAA (c2 :: t) := by
        simp [replAA, hb]
      rw [ht, e2, ← ht, ih, ht]
    · have hb2 : isAiPair c1 'A' = false := by simp [isAiPair]
      have e2 : replAA (c1 :: 'A' :: 'I' :: t) =
          c1 :: replAA ('A' :: 'I' :: t) := by
        simp [replAA, hb2]
      rw [ht, e2, ← ht, ih, ht]

/-- C10: the overlay builder first uppercases every case-insensitive
occurrence of `ai` anywhere in the beat, also inside longer words, so
the overlay is invariant under pre-normalizing the beat, and a beat
containing `maintain` and `daily` yields an overlay containing
`mAIntAIn` and `dAIly`. -/
theorem claim10_overlay_ai_anywhere :
    (∀ v k : JStr, createOverlay (replAA v) k = createOverlay v k) ∧
    createOverlay "Teams maintain their models daily".toList "x".toList =
      "Teams mAIntAIn their models dAIly".toList := by
  constructor
  · intro v k
    simp only [createOverlay, replAA_idem]
  · decide

/-- A concrete request whose keyword field contains `ai` inside a
longer word. -/
def c7Form : ScriptForm where
  topic := "machines".toList
  story := "We test things.".toList
  aspectRatioKey := "16:9".toList
  mood := "calm".toList
  keywords := "maintain".toList
  language := "en".toList

/-- C7 as stated is false: the keyword entry `maintain` of a concrete
plan keeps its interior lowercase `ai` (the anywhere-normalization is
the identity exactly on strings whose occurrences are already `AI`,
and it is not the identity here). -/
theorem claim7_counterexample :
    ¬ ∀ k ∈ ((generateVideoScriptE c7Form).getD emptyPlan).keywords,
      replAA k = k := by decide

/-- C7 (amended): in the final keyword list, every whole-word
case-insensitive occurrence of `ai` is rendered as uppercase `AI` —
the whole-word replacement leaves every entry fixed — while
occurrences inside longer words are not normalized. -/
theorem claim7_keywords_wholeword_ai (form : ScriptForm)
    (plan : VideoScript) (h : generateVideoScriptE form = some plan) :
    ∀ k ∈ plan.keywords, replWA false k = k := by
  intro k hk
  rw [(generate_fields form plan h).1] at hk
  unfold keywordsOf deriveKeywords at hk
  obtain ⟨b, _, rfl⟩ := List.mem_map.mp hk
  exact replWA_idem false b

/-- Witness for amended C7 at a concrete request and its first
keyword. -/
theorem claim7_keywords_wholeword_ai_witness :
    replWA false
        (((generateVideoScriptE wForm).getD emptyPlan).keywords.headD []) =
      ((generateVideoScriptE wForm).getD emptyPlan).keywords.headD [] :=
  claim7_keywords_wholeword_ai wForm
    ((generateVideoScriptE wForm).getD emptyPlan) (by decide) _ (by decide)

/-- Valid code points survive the round trip through `Char.ofNat`. -/
theorem charOfNat_toNat {n : Nat} (h : n < 55296) :
    (Char.ofNat n).toNat = n := by
  rw [Char.ofNat, dif_pos (Or.inl h)]
  rfl

/-- Characters outside `A`-`Z` are fixed by lowering. -/
theorem lowC_fixed {c : Char} (h : isUpperAZ c = false) : lowC c = c := by
  unfold lowC
  rw [if_neg (by simp [h])]

/-- Character lowering is idempotent. -/
theorem lowC_idem (c : Char) : lowC (lowC c) = lowC c := by
  by_cases h : isUpperAZ c = true
  · have hrange : 65 ≤ c.toNat ∧ c.toNat ≤ 90 := by
      unfold isUpperAZ at h
      simpa using h
    have hlo : lowC c = Char.ofNat (c.toNat + 32) := by
      unfold lowC
      rw [if_pos h]
    have ht : (Char.ofNat (c.toNat + 32)).toNat = c.toNat + 32 :=
      charOfNat_toNat (by omega)
    refine lowC_fixed ?_
    rw [hlo]
    unfold isUpperAZ
    rw [ht]
    have hgt : ¬ (c.toNat + 32 ≤ 90) := by omega
    simp [hgt]
  · have hf : isUpperAZ c = false := by simpa using h
    rw [lowC_fixed hf, lowC_fixed hf]

/-- String lowering is idempotent. -/
theorem lowerL_idem (s : JStr) : lowerL (lowerL s) = lowerL s := by
  unfold lowerL
  rw [List.map_map]
  exact List.map_congr_left fun c _ => lowC_idem c

/-- Lowercase letters and digits are not uppercase letters. -/
theorem notUpper_of_lowerOrDigit {c : Char}
    (h : (isLowerAZ c || isDigit09 c) = true) : isUpperAZ c = false := by
  unfold isLowerAZ isDigit09 isUpperAZ at *
  rcases Bool.or_eq_true_iff.mp h with h1 | h1 <;>
  · have h2 := Bool.and_eq_true_iff.mp h1
    simp only [decide_eq_true_eq] at h2
    simp only [Bool.and_eq_false_iff, decide_eq_false_iff_not]
    omega

/-- Characters of the produced chunks come from the input (or the
accumulator) and never satisfy the separator predicate. -/
theorem chunksGo_chars (p : Char → Bool) :
    ∀ (l acc : JStr), (∀ c ∈ acc, p c = false) →
      ∀ piece ∈ chunksGo p acc l, ∀ c ∈ piece,
        (c ∈ acc ∨ c ∈ l) ∧ p c = false := by
  intro l
  induction l with
  | nil =>
    intro acc hacc piece hp c hc
    simp only [chunksGo] at hp
    by_cases he : acc.isEmpty
    · simp [he] at hp
    · rw [if_neg he] at hp
      simp only [List.mem_singleton] at hp
      subst hp
      exact ⟨Or.inl (by simpa using hc), hacc c (by simpa using hc)⟩
  | cons e rest ih =>
    intro acc hacc piece hp c hc
    simp only [chunksGo] at hp
    by_cases hpe : p e = true
    · rw [if_pos hpe] at hp
      by_cases he : acc.isEmpty
      · rw [if_pos he] at hp
        have h2 := ih [] (by simp) piece hp c hc
        rcases h2.1 with h0 | hr
        · cases h0
        · exact ⟨Or.inr (List.mem_cons_of_mem _ hr), h2.2⟩
      · rw [if_neg he] at hp
        rcases List.mem_cons.mp hp with rfl | hp2
        · exact ⟨Or.inl (by simpa using hc), hacc c (by simpa using hc)⟩
        · have h2 := ih [] (by simp) piece hp2 c hc
          rcases h2.1 with h0 | hr
          · cases h0
          · exact ⟨Or.inr (List.mem_cons_of_mem _ hr), h2.2⟩
    · rw [if_neg hpe] at hp
      have hacc' : ∀ d ∈ e :: acc, p d = false := by
        intro d hd
        rcases List.mem_cons.mp hd with rfl | hd2
        · simpa using hpe
        · exact hacc d hd2
      have h2 := ih (e :: acc) hacc' piece hp c hc
      rcases h2.1 with h1 | hr
      · rcases List.mem_cons.mp h1 with rfl | h3
        · exact ⟨Or.inr (List.mem_cons_self _ _), h2.2⟩
        · exact ⟨Or.inl h3, h2.2⟩
      · exact ⟨Or.inr (List.mem_cons_of_mem _ hr), h2.2⟩

/-- Every token extracted from the cleaned, lowercased story text is
fixed by lowering. -/
theorem mem_chunks_cleaned_lower (story : JStr) :
    ∀ tok ∈ chunks isJsWs ((lowerL story).map fun c =>
        if isLowerAZ c || isDigit09 c || isJsWs c then c else ' '),
      lowerL tok = tok := by
  intro tok htok
  have hchars := chunksGo_chars isJsWs _ [] (by simp) tok htok
  unfold lowerL
  have hfix : ∀ c ∈ tok, lowC c = c := by
    intro c hc
    obtain ⟨hmem, hnw⟩ := hchars c hc
    rcases hmem with h0 | hcl
    · cases h0
    · obtain ⟨y, _, hcy⟩ := List.mem_map.mp hcl
      by_cases hcond : (isLowerAZ y || isDigit09 y || isJsWs y) = true
      · rw [if_pos hcond] at hcy
        subst hcy
        rcases Bool.or_eq_true_iff.mp hcond with h1 | h1
        · exact lowC_fixed (notUpper_of_lowerOrDigit h1)
        · rw [h1] at hnw
          cases hnw
      · rw [if_neg hcond] at hcy
        subst hcy
        simp [isJsWs] at hnw
  calc tok.map lowC = tok.map id := List.map_congr_left fun c hc => hfix c hc
    _ = tok := List.map_id tok

/-- `bumpCount` preserves a property of the stored keys. -/
theorem bumpCount_fst {P : JStr → Prop} (w : JStr) (hw : P w) :
    ∀ m, (∀ e ∈ m, P e.1) → ∀ e ∈ bumpCount w m, P e.1 := by
  intro m
  induction m with
  | nil =>
    intro _ e he
    simp only [bumpCount, List.mem_singleton] at he
    subst he
    exact hw
  | cons hd tl ih =>
    intro hm e he
    obtain ⟨v, n⟩ := hd
    simp only [bumpCount] at he
    by_cases hv : v = w
    · rw [if_pos hv] at he
      rcases List.mem_cons.mp he with rfl | h2
      · exact hm (v, n) (List.mem_cons_self _ _)
      · exact hm e (List.mem_cons_of_mem _ h2)
    · rw [if_neg hv] at he
      rcases List.mem_cons.mp he with rfl | h2
      · exact hm (v, n) (List.mem_cons_self _ _)
      · exact ih (fun x hx => hm x (List.mem_cons_of_mem _ hx)) e h2

/-- The frequency fold only stores keys drawn from the token list. -/
theorem foldl_bump_fst {P : JStr → Prop} :
    ∀ (toks : List JStr) (m : List (JStr × Nat)),
      (∀ w ∈ toks, P w) → (∀ e ∈ m, P e.1) →
      ∀ e ∈ toks.foldl (fun m w => bumpCount w m) m, P e.1 := by
  intro toks
  induction toks with
  | nil =>
    intro m _ hm e he
    exact hm e he
  | cons w rest ih =>
    intro m htoks hm e he
    simp only [List.foldl_cons] at he
    exact ih (bumpCount w m)
      (fun x hx => htoks x (List.mem_cons_of_mem _ hx))
      (bumpCount_fst w (htoks w (List.mem_cons_self _ _)) m hm) e he

/-- Stable insertion adds no new elements. -/
theorem mem_insDesc {e x : JStr × Nat} :
    ∀ {l}, e ∈ insDesc x l → e = x ∨ e ∈ l := by
  intro l
  induction l with
  | nil =>
    intro h
    simp only [insDesc, List.mem_singleton] at h
    exact Or.inl h
  | cons y ys ih =>
    intro h
    simp only [insDesc] at h
    by_cases hc : x.2 ≥ y.2
    · rw [if_pos hc] at h
      rcases List.mem_cons.mp h with rfl | h2
      · exact Or.inl rfl
      · exact Or.inr h2
    · rw [if_neg hc] at h
      rcases List.mem_cons.mp h with rfl | h2
      · exact Or.inr (List.mem_cons_self _ _)
      · rcases ih h2 with h3 | h3
        · exact Or.inl h3
        · exact Or.inr (List.mem_cons_of_mem _ h3)

/-- The stable sort adds no new elements. -/
theorem mem_sortDesc {e : JStr × Nat} :
    ∀ {l}, e ∈ sortDesc l → e ∈ l := by
  intro l
  induction l with
  | nil => intro h; exact h
  | cons y ys ih =>
    intro h
    rcases mem_insDesc h with rfl | h2
    · exact List.mem_cons_self _ _
    · exact List.mem_cons_of_mem _ (ih h2)

/-- Every derived keyword is fixed by lowering. -/
theorem extract_lower (s : JStr) :
    ∀ k ∈ extractKeywordsFromStory s, lowerL k = k := by
  intro k hk
  unfold extractKeywordsFromStory at hk
  obtain ⟨e, he, rfl⟩ := List.mem_map.mp hk
  have he2 := mem_sortDesc (List.mem_of_mem_take he)
  refine @foldl_bump_fst (fun x => lowerL x = x) _ [] ?_ (by simp) e he2
  intro w hw
  exact mem_chunks_cleaned_lower s w (List.mem_of_mem_filter hw)

/-- At most eight keywords are derived from the story. -/
theorem extract_len (s : JStr) :
    (extractKeywordsFromStory s).length ≤ 8 := by
  unfold extractKeywordsFromStory
  rw [List.length_map]
  exact List.length_take_le _ _

/-- De-duplication never lengthens a list. -/
theorem dedupFirst_length :
    ∀ (l seen : List JStr), (dedupFirst seen l).length ≤ l.length := by
  intro l
  induction l with
  | nil => intro _; simp [dedupFirst]
  | cons x xs ih =>
    intro seen
    simp only [dedupFirst]
    by_cases h : x ∈ seen
    · rw [if_pos h]
      exact le_trans (ih seen) (Nat.le_succ _)
    · rw [if_neg h]
      simpa using Nat.succ_le_succ (ih (x :: seen))

/-- Case-insensitive first-occurrence de-duplication, as described by
the claim: an entry is dropped when its lowercase form was already
seen. -/
def dedupCI (seen : List JStr) : List JStr → List JStr
  | [] => []
  | x :: xs =>
    if lowerL x ∈ seen then dedupCI seen xs
    else x :: dedupCI (lowerL x :: seen) xs

/-- On lists whose entries are fixed by lowering, exact de-duplication
is case-insensitive de-duplication. -/
theorem dedupFirst_eq_CI :
    ∀ (l : List JStr), (∀ x ∈ l, lowerL x = x) →
      ∀ seen, dedupFirst seen l = dedupCI seen l := by
  intro l
  induction l with
  | nil => intro _ _; rfl
  | cons x xs ih =>
    intro hall seen
    have hx : lowerL x = x := hall x (List.mem_cons_self _ _)
    simp only [dedupFirst, dedupCI, hx]
    by_cases hmem : x ∈ seen
    · rw [if_pos hmem, if_pos hmem]
      exact ih (fun y hy => hall y (List.mem_cons_of_mem _ hy)) seen
    · rw [if_neg hmem, if_neg hmem,
        ih (fun y hy => hall y (List.mem_cons_of_mem _ hy)) (x :: seen)]

/-- Keyword list prescribed by claim C6, as stated: caller-supplied
keywords followed by the derived keywords, de-duplicated
case-insensitively keeping first occurrences — with no `ai` → `AI`
normalization step. -/
def claim6Keywords (form : ScriptForm) : List JStr :=
  dedupCI [] (providedKeywords form.keywords ++
    extractKeywordsFromStory (form.topic ++ ". ".toList ++
      trimmedStoryOf form))

/-- A concrete request whose keyword field is the single word `ai`. -/
def c6Form : ScriptForm where
  topic := "zzz".toList
  story := "qqq www".toList
  aspectRatioKey := "16:9".toList
  mood := "calm".toList
  keywords := "ai".toList
  language := "en".toList

/-- C6 as stated is false: at a concrete request the plan keyword list
differs from the described concatenation-and-deduplication, because the
final `ai` → `AI` normalization rewrites the entry `ai` to `AI`. -/
theorem claim6_counterexample :
    ((generateVideoScriptE c6Form).getD emptyPlan).keywords ≠
      claim6Keywords c6Form := by decide

/-- C6 (amended): the plan keyword list equals the caller-supplied
keywords followed by the keywords derived by token frequency from
topic plus story (at most eight), de-duplicated case-insensitively
keeping first occurrences, with every entry then normalized by the
whole-word `ai` → `AI` replacement; hence its length is at most the
number of caller-supplied keywords plus eight. -/
theorem claim6_keywords (form : ScriptForm) (plan : VideoScript)
    (h : generateVideoScriptE form = some plan) :
    plan.keywords =
      (dedupCI [] (providedKeywords form.keywords ++
        extractKeywordsFromStory (form.topic ++ ". ".toList ++
          trimmedStoryOf form))).map (replWA false) ∧
    (extractKeywordsFromStory (form.topic ++ ". ".toList ++
      trimmedStoryOf form)).length ≤ 8 ∧
    plan.keywords.length ≤ (providedKeywords form.keywords).length + 8 := by
  have hkw : plan.keywords = keywordsOf form := (generate_fields form plan h).1
  have hall : ∀ x ∈ providedKeywords form.keywords ++
      extractKeywordsFromStory (form.topic ++ ". ".toList ++
        trimmedStoryOf form), lowerL x = x := by
    intro x hx
    rcases List.mem_append.mp hx with hx1 | hx2
    · obtain ⟨y, _, rfl⟩ := List.mem_map.mp hx1
      exact lowerL_idem y
    · exact extract_lower _ x hx2
  refine ⟨?_, extract_len _, ?_⟩
  · rw [hkw]
    simp only [keywordsOf, deriveKeywords]
    rw [dedupFirst_eq_CI _ hall []]
  · rw [hkw]
    simp only [keywordsOf, deriveKeywords]
    rw [List.length_map]
    calc (dedupFirst [] (providedKeywords form.keywords ++
          extractKeywordsFromStory (form.topic ++ ". ".toList ++
            trimmedStoryOf form))).length
        ≤ (providedKeywords form.keywords ++
            extractKeywordsFromStory (form.topic ++ ". ".toList ++
              trimmedStoryOf form)).length := dedupFirst_length _ _
      _ = (providedKeywords form.keywords).length +
            (extractKeywordsFromStory (form.topic ++ ". ".toList ++
              trimmedStoryOf form)).length := List.length_append _ _
      _ ≤ (providedKeywords form.keywords).length + 8 :=
            Nat.add_le_add_left (extract_len _) _

/-- Witness for amended C6 at a concrete request. -/
theorem claim6_keywords_witness :
    ((generateVideoScriptE wForm).getD emptyPlan).keywords =
      (dedupCI [] (providedKeywords wForm.keywords ++
        extractKeywordsFromStory (wForm.topic ++ ". ".toList ++
          trimmedStoryOf wForm))).map (replWA false) ∧
    (extractKeywordsFromStory (wForm.topic ++ ". ".toList ++
      trimmedStoryOf wForm)).length ≤ 8 ∧
    ((generateVideoScriptE wForm).getD emptyPlan).keywords.length ≤
      (providedKeywords wForm.keywords).length + 8 :=
  claim6_keywords wForm ((generateVideoScriptE wForm).getD emptyPlan)
    (by decide)
